import Mathlib

/-!
Verification development for the multi-step command orchestrator of the
`samantha` assistant (`assistant/command_processor.py`).

The Python module is embedded shallowly: every class becomes a structure,
every method a pure function from the old state to the new state (plus the
returned values), and Python strings are handled through character-list
operations mirroring `str.split`, `str.strip`, `str.lower`, `str.startswith`
and the `in` containment test, so that all definitions evaluate inside the
kernel.  Handlers (arbitrary Python callables that either return a
`(response, result)` pair or raise) are embedded as functions into
`Except String (String × Option String)`.  Timestamps (`created_at`,
`completed_at`) and the random `uuid` identifiers carry no information used
by any property below and are omitted from the state.
-/

/-! ## Definitions: embedded data model, operations, and concrete runs -/

/-- Whitespace characters removed by Python's `str.strip()`. -/
def pySpace (c : Char) : Bool :=
  c == ' ' || c == '\t' || c == '\n' || c == '\r' || c == '\x0b' || c == '\x0c'

/-- Models Python `str.startswith` on character lists. -/
def pyStartsWith : List Char → List Char → Bool
  | _, [] => true
  | [], _ :: _ => false
  | a :: as, b :: bs => a == b && pyStartsWith as bs

/-- Substring containment on character lists: models Python's `needle in hay`. -/
def listContains (hay needle : List Char) : Bool :=
  match hay with
  | [] => pyStartsWith [] needle
  | _ :: t => pyStartsWith hay needle || listContains t needle

/-- Models Python's `needle in hay` on strings. -/
def pyContains (hay needle : String) : Bool :=
  listContains hay.data needle.data

/-- Models Python's `str.strip()` on character lists. -/
def stripChars (l : List Char) : List Char :=
  ((l.dropWhile pySpace).reverse.dropWhile pySpace).reverse

/-- Models Python's `str.strip()`. -/
def pyStrip (s : String) : String :=
  ⟨stripChars s.data⟩

/-- Models Python's `str.lower()`. -/
def pyLower (s : String) : String :=
  ⟨s.data.map Char.toLower⟩

/-- Worker for `pySplit`: scans the text left to right, cutting at each
non-overlapping occurrence of the (non-empty) separator.  The `fuel`
argument bounds the recursion; `hay.length` steps always suffice since
every call consumes at least one character. -/
def splitGo (sep : List Char) : Nat → List Char → List Char → List (List Char)
  | _, [], cur => [cur.reverse]
  | 0, l, cur => [cur.reverse ++ l]
  | fuel + 1, c :: rest, cur =>
    if pyStartsWith (c :: rest) sep then
      cur.reverse :: splitGo sep fuel (rest.drop (sep.length - 1)) []
    else
      splitGo sep fuel rest (c :: cur)

/-- Models Python's `s.split(sep)` for a non-empty separator `sep`. -/
def pySplit (s sep : String) : List String :=
  (splitGo sep.data s.data.length s.data []).map (fun l => ⟨l⟩)

/-- Replaces the element at index `i` by `f` applied to it when the index is
in bounds, mirroring an in-place mutation of a Python list element. -/
def listModify (l : List α) (i : Nat) (f : α → α) : List α :=
  match l[i]? with
  | some a => l.set i (f a)
  | none => l

/-- Embeds the `CommandState` enumeration from the source. -/
inductive CommandState where
  | pending
  | in_progress
  | awaiting_confirmation
  | completed
  | failed
  | cancelled
deriving DecidableEq

/-- Embeds `Command`: one command of a sequence.  The random `uuid` id and
the `created_at`/`completed_at` timestamps carry no information used by any
property below and are omitted. -/
structure Command where
  text : String
  intent : Option String
  parameters : List (String × String)
  state : CommandState
  result : Option String
  error : Option String
deriving DecidableEq

/-- Embeds `Command.__init__(text, intent, parameters)`: fresh commands start
`PENDING` with no result and no error. -/
def Command.init (text : String) (intent : Option String)
    (parameters : List (String × String)) : Command :=
  { text := text, intent := intent, parameters := parameters,
    state := CommandState.pending, result := none, error := none }

/-- Embeds `CommandSequence`: the cursor `current_index` starts at the
sentinel `-1` (id and timestamps omitted as for `Command`). -/
structure CommandSequence where
  name : String
  commands : List Command
  current_index : Int
  state : CommandState
  require_confirmation : Bool
deriving DecidableEq

/-- Embeds `CommandSequence.get_current_command`. -/
def CommandSequence.get_current_command (s : CommandSequence) : Option Command :=
  if 0 ≤ s.current_index ∧ s.current_index < (s.commands.length : Int) then
    s.commands[s.current_index.toNat]?
  else none

/-- Embeds `CommandSequence.get_next_command`. -/
def CommandSequence.get_next_command (s : CommandSequence) : Option Command :=
  if s.current_index + 1 < (s.commands.length : Int) then
    s.commands[(s.current_index + 1).toNat]?
  else none

/-- Embeds `CommandSequence.advance`: move the cursor forward and mark the
new current command `IN_PROGRESS`, or mark the whole sequence `COMPLETED`
when the cursor cannot move past the end. -/
def CommandSequence.advance (s : CommandSequence) : CommandSequence × Option Command :=
  if s.current_index + 1 < (s.commands.length : Int) then
    let i := (s.current_index + 1).toNat
    let cmds := listModify s.commands i
      (fun c => { c with state := CommandState.in_progress })
    ({ s with current_index := s.current_index + 1, commands := cmds }, cmds[i]?)
  else
    ({ s with state := CommandState.completed }, none)

/-- Embeds `CommandSequence.mark_current_complete`. -/
def CommandSequence.mark_current_complete (s : CommandSequence)
    (result : Option String) : CommandSequence :=
  if 0 ≤ s.current_index ∧ s.current_index < (s.commands.length : Int) then
    let cmds := listModify s.commands s.current_index.toNat
      (fun c => { c with state := CommandState.completed, result := result })
    { s with commands := cmds }
  else s

/-- Embeds `CommandSequence.mark_current_failed`. -/
def CommandSequence.mark_current_failed (s : CommandSequence)
    (error : String) : CommandSequence :=
  if 0 ≤ s.current_index ∧ s.current_index < (s.commands.length : Int) then
    let cmds := listModify s.commands s.current_index.toNat
      (fun c => { c with state := CommandState.failed, error := some error })
    { s with commands := cmds, state := CommandState.failed }
  else s

/-- Writes the (possibly intent-updated) current command back in place;
models the in-place mutation `current_command.intent = ...` performed by
`CommandProcessor.process_current_command`. -/
def CommandSequence.set_current (s : CommandSequence) (c : Command) : CommandSequence :=
  { s with commands := listModify s.commands s.current_index.toNat (fun _ => c) }

/-- Embeds a registered handler: a Python callable `(text, parameters)` that
returns a `(response, result)` pair or raises (the `Except.error` carries
`str(e)`). -/
def Handler : Type :=
  String → List (String × String) → Except String (String × Option String)

/-- Embeds the `CommandProcessor` state; the handler dictionary is embedded
as a lookup function. -/
structure CommandProcessor where
  command_handlers : String → Option Handler
  active_sequence : Option CommandSequence
  sequence_queue : List CommandSequence
  awaiting_confirmation : Bool
  command_history : List CommandSequence

/-- Embeds `CommandProcessor.__init__`. -/
def CommandProcessor.init (hs : String → Option Handler) : CommandProcessor :=
  { command_handlers := hs, active_sequence := none, sequence_queue := [],
    awaiting_confirmation := false, command_history := [] }

/-- Embeds `CommandProcessor.register_handler`: dictionary assignment. -/
def CommandProcessor.register_handler (p : CommandProcessor) (intent : String)
    (h : Handler) : CommandProcessor :=
  { p with command_handlers := fun i => if i = intent then some h else p.command_handlers i }

/-- Embeds `CommandProcessor.create_sequence` (it does not read the processor
state). -/
def CommandProcessor.create_sequence (name : String) (cmds : List String)
    (require_confirmation : Bool) : CommandSequence :=
  { name := name, commands := cmds.map (fun t => Command.init t none []),
    current_index := -1, state := CommandState.pending,
    require_confirmation := require_confirmation }

/-- Embeds `CommandProcessor._process_next_from_queue`: pop the queue head,
mark it `IN_PROGRESS`, make it active and advance it onto its first
command.  Returns `true` exactly when a first command exists; note the
popped sequence stays in `active_sequence` even when `false` is returned. -/
def CommandProcessor.process_next_from_queue (p : CommandProcessor) :
    CommandProcessor × Bool :=
  match p.sequence_queue with
  | [] => (p, false)
  | sq :: rest =>
    let adv := ({ sq with state := CommandState.in_progress } : CommandSequence).advance
    ({ p with active_sequence := some adv.1, sequence_queue := rest }, adv.2.isSome)

/-- Embeds `CommandProcessor.queue_sequence`. -/
def CommandProcessor.queue_sequence (p : CommandProcessor)
    (s : CommandSequence) : CommandProcessor :=
  let p1 := { p with sequence_queue := p.sequence_queue ++ [s] }
  if p1.active_sequence.isNone then (p1.process_next_from_queue).1 else p1

/-- Embeds the fallback keyword intent detection inlined in
`CommandProcessor.process_current_command`. -/
def inferIntent (text : String) : String :=
  let t := pyLower text
  if pyContains t "spotify" || pyContains t "play" || pyContains t "music" then
    "spotify"
  else if pyContains t "browser" || pyContains t "web" || pyContains t "search" then
    "browser"
  else if pyContains t "whatsapp" || pyContains t "message" || pyContains t "send" then
    "whatsapp"
  else "general"

/-- Embeds `CommandProcessor.process_current_command`: resolve the intent
when it is missing, dispatch through the handler table, and mark the
current command completed or failed.  Returns the new state together with
the `(response, result)` pair. -/
def CommandProcessor.process_current_command (p : CommandProcessor) :
    CommandProcessor × String × Option String :=
  match p.active_sequence with
  | none => (p, "No active command sequence.", none)
  | some seq =>
    match seq.get_current_command with
    | none => (p, "No current command to process.", none)
    | some cmd0 =>
      let needsIntent := (cmd0.intent.getD "" == "") && (cmd0.text != "")
      let cmd :=
        if needsIntent then { cmd0 with intent := some (inferIntent cmd0.text) }
        else cmd0
      let seq1 := seq.set_current cmd
      let found := match cmd.intent with
        | none => none
        | some i => p.command_handlers i
      let outcome : CommandSequence × String × Option String :=
        match found with
        | none =>
          let intentStr := match cmd.intent with
            | none => "None"
            | some i => i
          (seq1.mark_current_failed ("No handler found for intent: " ++ intentStr),
            "I don\x27t know how to process \x27" ++ cmd.text ++ "\x27", none)
        | some h =>
          match h cmd.text cmd.parameters with
          | Except.ok (response, result) =>
            (seq1.mark_current_complete result, response, result)
          | Except.error e =>
            (seq1.mark_current_failed ("Error processing command: " ++ e),
              "Error processing command: " ++ e, none)
      ({ p with active_sequence := some outcome.1 }, outcome.2)

/-- Embeds `CommandProcessor.advance_sequence`: clear the confirmation gate,
advance the active sequence, and on completion retire it to history and
activate the next queued sequence. -/
def CommandProcessor.advance_sequence (p : CommandProcessor) :
    CommandProcessor × Bool × Option Command × String :=
  match p.active_sequence with
  | none => (p, false, none, "No active command sequence.")
  | some seq =>
    let p1 := { p with awaiting_confirmation := false }
    let adv := seq.advance
    match adv.2 with
    | some c =>
      ({ p1 with active_sequence := some adv.1 }, true, some c,
        "Moving to next step: " ++ c.text)
    | none =>
      let p2 :=
        { p1 with
          command_history := p1.command_history ++ [adv.1],
          active_sequence := none }
      let pnq := p2.process_next_from_queue
      if pnq.2 then
        (pnq.1, true, pnq.1.active_sequence.bind CommandSequence.get_current_command,
          "Started next command sequence.")
      else
        (pnq.1, true, none, "Command sequence completed.")

/-- Shared tail of `CommandProcessor.handle_confirmation` (the proceed path):
clear the gate and advance. -/
def CommandProcessor.confirm_proceed (p : CommandProcessor) :
    CommandProcessor × Bool × String :=
  let a := ({ p with awaiting_confirmation := false } : CommandProcessor).advance_sequence
  (a.1, a.2.1, a.2.2.2)

/-- Embeds `CommandProcessor.handle_confirmation`. -/
def CommandProcessor.handle_confirmation (p : CommandProcessor)
    (confirmed : Bool) : CommandProcessor × Bool × String :=
  if p.awaiting_confirmation = false then
    (p, false, "No confirmation was requested.")
  else if confirmed = false then
    match p.active_sequence with
    | some seq =>
      let seq1 := { seq with state := CommandState.cancelled }
      let p1 :=
        { p with
          command_history := p.command_history ++ [seq1],
          active_sequence := none,
          awaiting_confirmation := false }
      let pnq := p1.process_next_from_queue
      if pnq.2 then (pnq.1, true, "Command cancelled. Started next command sequence.")
      else (pnq.1, true, "Command sequence cancelled.")
    | none => p.confirm_proceed
  else p.confirm_proceed

/-- Embeds `CommandProcessor.request_confirmation` (the returned
`next_step_info` dictionary is folded into the prompt string it feeds). -/
def CommandProcessor.request_confirmation (p : CommandProcessor) :
    CommandProcessor × Bool × String :=
  match p.active_sequence with
  | none => (p, false, "No active command sequence.")
  | some seq =>
    match seq.get_next_command with
    | none => (p, false, "No next step to confirm.")
    | some nxt =>
      ({ p with awaiting_confirmation := true }, true,
        "Ready for step " ++ toString (seq.current_index + 2) ++ " of " ++
          toString seq.commands.length ++ ": " ++ nxt.text ++ ". Should I proceed?")

/-- Embeds `CommandProcessor.cancel_all`. -/
def CommandProcessor.cancel_all (p : CommandProcessor) : CommandProcessor × String :=
  let p1 :=
    match p.active_sequence with
    | some seq =>
      let retired := { seq with state := CommandState.cancelled }
      { p with command_history := p.command_history ++ [retired] }
    | none => p
  let p2 :=
    { p1 with
      active_sequence := none,
      sequence_queue := [],
      awaiting_confirmation := false }
  (p2, "All command sequences cancelled.")

/-- Numbered-list markers `f"{i}."` for `i in range(1, 10)`. -/
def markers : List String :=
  ["1.", "2.", "3.", "4.", "5.", "6.", "7.", "8.", "9."]

/-- Connector phrases of `extract_steps_from_text`. -/
def connectors : List String :=
  [" and ", " then ", " after that ", " next ", " finally "]

/-- Embeds `extract_steps_from_text`: numbered lines first (markers are only
recognised at the start of a whitespace-trimmed line), then the first
connector contained in the lowercased text, else the whole text as the
sole step. -/
def extract_steps_from_text (text : String) : List String :=
  let numbered := markers.any (fun m => pyContains text m)
  let steps : List String :=
    if numbered then
      let lines := ((pySplit text "\n").map pyStrip).filter (fun l => l != "")
      lines.foldl (fun acc line =>
        acc ++ markers.filterMap (fun m =>
          if pyStartsWith line.data m.data then
            some (pyStrip ⟨line.data.drop m.data.length⟩)
          else none)) []
    else []
  if numbered && !steps.isEmpty then steps
  else
    match connectors.find? (fun c => pyContains (pyLower text) c) with
    | some c => ((pySplit text c).map pyStrip).filter (fun st => st != "")
    | none => [text]

/-- Empty handler table (`CommandProcessor()` with no handlers). -/
def noHandlers : String → Option Handler := fun _ => none

/-- Handler that always raises `ValueError("boom")`. -/
def boomHandler : Handler := fun _ _ => Except.error "boom"

/-- Processor with the raising handler registered for the `general` fallback
intent. -/
def boomProcessor : CommandProcessor :=
  (CommandProcessor.init noHandlers).register_handler "general" boomHandler

/-- One-step sequence whose only command falls back to the `general` intent. -/
def oneStepSeq : CommandSequence :=
  CommandProcessor.create_sequence "w" ["hello"] true

/-- Concrete run refuting C2: queue the one-step sequence, fail its command
through the raising handler, then advance once, which retires it. -/
def retiredAfterFailure : CommandProcessor :=
  ((((boomProcessor.queue_sequence oneStepSeq).process_current_command).1).advance_sequence).1

/-- The failed sequence reached by the C2 run, written out. -/
def failedOneStepSeq : CommandSequence :=
  { name := "w",
    commands := [{ text := "hello", intent := some "general", parameters := [],
                   state := CommandState.failed, result := none,
                   error := some "Error processing command: boom" }],
    current_index := 0,
    state := CommandState.failed,
    require_confirmation := true }

/-- Empty sequence named `a` (C10/C6 input). -/
def emptySeqA : CommandSequence := CommandProcessor.create_sequence "a" [] true

/-- Empty sequence named `b` (C6 input). -/
def emptySeqB : CommandSequence := CommandProcessor.create_sequence "b" [] true

/-- One-step sequence queued behind the empty one in the C10 witness. -/
def tailSeqT : CommandSequence := CommandProcessor.create_sequence "t" ["x"] true

/-- Concrete run for C6: retire the empty sequence `a`, then the empty
sequence `b`. -/
def twoRetiredP : CommandProcessor :=
  (((((CommandProcessor.init noHandlers).queue_sequence emptySeqA).advance_sequence).1.queue_sequence
      emptySeqB).advance_sequence).1

/-- Orchestrator states reachable from `CommandProcessor.__init__` through
the public operations (handlers may be registered and arbitrary sequences
enqueued along the way). -/
inductive Reachable : CommandProcessor → Prop where
  | init (hs : String → Option Handler) : Reachable (CommandProcessor.init hs)
  | register (p : CommandProcessor) (intent : String) (h : Handler) :
      Reachable p → Reachable (p.register_handler intent h)
  | queue (p : CommandProcessor) (s : CommandSequence) :
      Reachable p → Reachable (p.queue_sequence s)
  | process (p : CommandProcessor) :
      Reachable p → Reachable (p.process_current_command).1
  | advance (p : CommandProcessor) :
      Reachable p → Reachable (p.advance_sequence).1
  | confirm (p : CommandProcessor) (b : Bool) :
      Reachable p → Reachable (p.handle_confirmation b).1
  | request (p : CommandProcessor) :
      Reachable p → Reachable (p.request_confirmation).1
  | cancel (p : CommandProcessor) :
      Reachable p → Reachable (p.cancel_all).1

/-- Two-step sequence used to exhibit a gated reachable state and the C1
counterexample run. -/
def twoStepSeq : CommandSequence :=
  CommandProcessor.create_sequence "w" ["hello", "hello"] true

/-- Reachable state with the gate raised: queue a two-step sequence, then
request confirmation for its second step. -/
def gatedProcessor : CommandProcessor :=
  (((CommandProcessor.init noHandlers).queue_sequence twoStepSeq).request_confirmation).1

/-- Progress rank of a command state along
`Pending(0) -> InProgress(1) -> \x7bCompleted, Failed\x7d(2)`. -/
def rank : CommandState → Nat
  | CommandState.pending => 0
  | CommandState.in_progress => 1
  | _ => 2

/-- Freshly constructed sequence: cursor at the sentinel and every command
still `PENDING` (as produced by `Command.__init__`, whatever the caller
passes for text/intent/parameters). -/
def SeqInit (s : CommandSequence) : Prop :=
  s.current_index = -1 ∧ ∀ c ∈ s.commands, c.state = CommandState.pending

/-- Sequence mutations the orchestrator performs on its active sequence:
marking it started or cancelled, advancing, marking the current command
completed or failed, and re-writing the current command with a resolved
intent. -/
inductive SeqStep : CommandSequence → CommandSequence → Prop where
  | start (s : CommandSequence) :
      SeqStep s { s with state := CommandState.in_progress }
  | advance (s : CommandSequence) : SeqStep s (s.advance).1
  | complete (s : CommandSequence) (r : Option String) :
      SeqStep s (s.mark_current_complete r)
  | fails (s : CommandSequence) (e : String) :
      SeqStep s (s.mark_current_failed e)
  | cancel (s : CommandSequence) :
      SeqStep s { s with state := CommandState.cancelled }
  | resolve (s : CommandSequence) (c : Command) (i : Option String)
      (h : s.get_current_command = some c) :
      SeqStep s (s.set_current { c with intent := i })

/-- Invariant carried by every sequence the orchestrator manipulates: the
cursor never drops below the sentinel and every command strictly beyond
the cursor is still `PENDING`. -/
def SeqInv (s : CommandSequence) : Prop :=
  -1 ≤ s.current_index ∧
  ∀ j : Nat, s.current_index < (j : Int) →
    ∀ c, s.commands[j]? = some c → c.state = CommandState.pending

/-- Sequence reachable from some freshly constructed sequence through the
orchestrator's mutations. -/
def SeqReachable (s : CommandSequence) : Prop :=
  ∃ s0, SeqInit s0 ∧ Relation.ReflTransGen SeqStep s0 s

/-- Handler returning normally with result payload `"r"`. -/
def generalOkHandler : Handler :=
  fun t _ => Except.ok ("General: " ++ t, some "r")

/-- Concrete run for the C3 counterexample: process the one-step sequence
once with no handler registered (command `Failed`, `error` set), then
register a `general` handler and process the same still-current command
again. -/
def doubleProcessedRun : CommandProcessor :=
  (((((CommandProcessor.init noHandlers).queue_sequence oneStepSeq
    ).process_current_command).1.register_handler "general" generalOkHandler
    ).process_current_command).1

/-- Orchestrator state right after the first step of a two-step sequence
fails (handler raises). -/
def failedMidRun : CommandProcessor :=
  ((boomProcessor.queue_sequence twoStepSeq).process_current_command).1

/-- Command with its intent already attached (as the repository's own tests
build them). -/
def presetCmd (t : String) : Command :=
  { text := t, intent := some "general", parameters := [],
    state := CommandState.pending, result := none, error := none }

/-- Two-step sequence of preset-intent commands (C1 witness input). -/
def presetTwoStepSeq : CommandSequence :=
  { name := "w2", commands := [presetCmd "a", presetCmd "b"],
    current_index := -1, state := CommandState.pending,
    require_confirmation := true }

/-- Processor with the raising handler after enqueueing the preset two-step
sequence. -/
def presetP : CommandProcessor :=
  boomProcessor.queue_sequence presetTwoStepSeq

/-- The active sequence of `presetP`, written out. -/
def presetActiveSeq : CommandSequence :=
  { name := "w2",
    commands := [{ presetCmd "a" with state := CommandState.in_progress },
                 presetCmd "b"],
    current_index := 0, state := CommandState.in_progress,
    require_confirmation := true }

/-! ## Theorems -/

/-- Length preservation of `listModify`. -/
theorem listModify_length (l : List α) (i : Nat) (f : α → α) :
    (listModify l i f).length = l.length := by
  unfold listModify
  cases h : l[i]? <;> simp [h]

/-- Reading back the modified index of `listModify`. -/
theorem listModify_get_self (l : List α) (i : Nat) (f : α → α) :
    (listModify l i f)[i]? = (l[i]?).map f := by
  unfold listModify
  cases h : l[i]? with
  | none => simp [h]
  | some a =>
    have hlt : i < l.length := by
      by_contra hge
      rw [List.getElem?_eq_none (Nat.le_of_not_lt hge)] at h
      exact Option.noConfusion h
    simp [List.getElem?_set_self', h]

/-- Reading an untouched index of `listModify`. -/
theorem listModify_get_ne (l : List α) (i j : Nat) (f : α → α) (h : i ≠ j) :
    (listModify l i f)[j]? = l[j]? := by
  unfold listModify
  cases hi : l[i]? with
  | none => rfl
  | some a => simp [List.getElem?_set_ne h]

/-- Cursor preservation of `set_current`. -/
theorem set_current_index (s : CommandSequence) (c : Command) :
    (s.set_current c).current_index = s.current_index := rfl

/-- Length preservation of `set_current`. -/
theorem set_current_length (s : CommandSequence) (c : Command) :
    (s.set_current c).commands.length = s.commands.length := by
  simp [CommandSequence.set_current, listModify_length]

/-- Sequence-state preservation of `set_current`. -/
theorem set_current_state (s : CommandSequence) (c : Command) :
    (s.set_current c).state = s.state := rfl

/-- Cursor preservation of `mark_current_failed`. -/
theorem mark_current_failed_index (s : CommandSequence) (e : String) :
    (s.mark_current_failed e).current_index = s.current_index := by
  unfold CommandSequence.mark_current_failed
  split <;> rfl

/-- Length preservation of `mark_current_failed`. -/
theorem mark_current_failed_length (s : CommandSequence) (e : String) :
    (s.mark_current_failed e).commands.length = s.commands.length := by
  unfold CommandSequence.mark_current_failed
  split <;> simp [listModify_length]

/-- With the cursor in bounds, `mark_current_failed` sets the sequence state
to `Failed`. -/
theorem mark_current_failed_state (s : CommandSequence) (e : String)
    (h : 0 ≤ s.current_index ∧ s.current_index < (s.commands.length : Int)) :
    (s.mark_current_failed e).state = CommandState.failed := by
  unfold CommandSequence.mark_current_failed
  rw [if_pos h]

/-- A present current command puts the cursor in bounds. -/
theorem get_current_bounds (s : CommandSequence) (c : Command)
    (h : s.get_current_command = some c) :
    0 ≤ s.current_index ∧ s.current_index < (s.commands.length : Int) := by
  unfold CommandSequence.get_current_command at h
  by_contra hn
  rw [if_neg hn] at h
  exact Option.noConfusion h

/-- The operation `_process_next_from_queue` does not touch the confirmation
gate. -/
theorem pnq_gate (p : CommandProcessor) :
    ((p.process_next_from_queue).1).awaiting_confirmation = p.awaiting_confirmation := by
  unfold CommandProcessor.process_next_from_queue
  cases h : p.sequence_queue <;> simp

/-- The operation `_process_next_from_queue` does not touch the history. -/
theorem pnq_history (p : CommandProcessor) :
    ((p.process_next_from_queue).1).command_history = p.command_history := by
  unfold CommandProcessor.process_next_from_queue
  cases h : p.sequence_queue <;> simp

/-- A non-empty queue always yields an active sequence after
`_process_next_from_queue`. -/
theorem pnq_active_of_ne (p : CommandProcessor) (h : p.sequence_queue ≠ []) :
    ((p.process_next_from_queue).1).active_sequence.isSome = true := by
  unfold CommandProcessor.process_next_from_queue
  cases hq : p.sequence_queue with
  | nil => exact absurd hq h
  | cons a t => simp

/-- The operation `advance_sequence` only ever appends to the history. -/
theorem advance_history_extends (p : CommandProcessor) :
    ∃ t, (p.advance_sequence).1.command_history = p.command_history ++ t := by
  unfold CommandProcessor.advance_sequence
  cases ha : p.active_sequence with
  | none => exact ⟨[], by simp⟩
  | some seq =>
    cases hv : (seq.advance).2 with
    | some c => exact ⟨[], by simp [hv]⟩
    | none =>
      refine ⟨[(seq.advance).1], ?_⟩
      have hb : ∀ q : CommandProcessor, ((q.process_next_from_queue).1).command_history
          = q.command_history := pnq_history
      cases hp : (({ p with
          awaiting_confirmation := false,
          command_history := p.command_history ++ [(seq.advance).1],
          active_sequence := none } : CommandProcessor).process_next_from_queue).2 <;>
        simp [hv, hp, hb]

/-- After `cancel_all` the three orchestrator-state fields are reset and the
fixed message is returned, whatever the prior state. -/
theorem cancel_all_state (p : CommandProcessor) :
    (p.cancel_all).1.active_sequence = none ∧
    (p.cancel_all).1.sequence_queue = [] ∧
    (p.cancel_all).1.awaiting_confirmation = false ∧
    (p.cancel_all).2 = "All command sequences cancelled." := by
  unfold CommandProcessor.cancel_all
  cases h : p.active_sequence <;> simp

/-- C5 (confirmed): `cancel_all` is total (always returns its message) and
from any prior state leaves the orchestrator Idle: no active sequence,
empty queue, and the confirmation gate cleared. -/
theorem cancel_all_always_resets_to_idle (p : CommandProcessor) :
    (p.cancel_all).1.active_sequence = none ∧
    (p.cancel_all).1.sequence_queue = [] ∧
    (p.cancel_all).1.awaiting_confirmation = false ∧
    (p.cancel_all).2 = "All command sequences cancelled." :=
  cancel_all_state p

/-- C2 counterexample: a sequence retired with `state = Completed` although
its only command (hence its last command) has `state = Failed`: the claim
that `Completed` is reached only when the last command's own state is
`Completed` (equivalently, only if every command reached `Completed`) is
false on the code. -/
theorem c2_counterexample :
    retiredAfterFailure.command_history.map CommandSequence.state
        = [CommandState.completed] ∧
    retiredAfterFailure.command_history.map (fun s => s.commands.map Command.state)
        = [[CommandState.failed]] ∧
    retiredAfterFailure.active_sequence = none := by
  decide

/-- C2 (amended): `CommandSequence.advance` marks the sequence `Completed`
exactly when the cursor cannot move past the last command, regardless of
the commands' own states (which it leaves untouched); no condition on the
last command being `Completed` is checked. -/
theorem advance_completes_unconditionally (s : CommandSequence)
    (h : ¬ s.current_index + 1 < (s.commands.length : Int)) :
    (s.advance).1.state = CommandState.completed ∧
    (s.advance).2 = none ∧
    (s.advance).1.commands = s.commands := by
  unfold CommandSequence.advance
  rw [if_neg h]
  exact ⟨rfl, rfl, rfl⟩

/-- Witness for the C2 amended theorem at the failed one-step sequence. -/
theorem advance_completes_unconditionally_witness :
    (failedOneStepSeq.advance).1.state = CommandState.completed ∧
    (failedOneStepSeq.advance).2 = none ∧
    (failedOneStepSeq.advance).1.commands = failedOneStepSeq.commands :=
  advance_completes_unconditionally failedOneStepSeq (by decide)

/-- C4 (code bug): the numbered-list strategy only recognises markers at the
start of whitespace-trimmed lines, so the single-line input
`"1. play jazz 2. open github"` yields one step, not the two steps
required by the claim and by the repository's own tests
(`tests/test_multi_step_commands.py` expects three steps from
`"1. Play some jazz 2. Open GitHub 3. Send a message"`); with markers on
separate lines the code splits as described. -/
theorem extract_steps_numbered_markers_only_split_at_line_starts :
    extract_steps_from_text "1. play jazz 2. open github"
        = ["play jazz 2. open github"] ∧
    extract_steps_from_text "1. play jazz 2. open github"
        ≠ ["play jazz", "open github"] ∧
    (extract_steps_from_text "1. Play some jazz 2. Open GitHub 3. Send a message").length
        = 1 ∧
    extract_steps_from_text "1. play jazz\n2. open github"
        = ["play jazz", "open github"] := by
  decide

/-- When no numbered marker occurs in the text and no connector occurs in
its lowercasing, `extract_steps_from_text` falls through to the final
`return [text]` branch: the input exactly as given, not trimmed. -/
theorem extract_no_structure (text : String)
    (h1 : markers.any (fun m => pyContains text m) = false)
    (h2 : connectors.find? (fun c => pyContains (pyLower text) c) = none) :
    extract_steps_from_text text = [text] := by
  unfold extract_steps_from_text
  rw [h1]
  simp [h2]

/-- C7 counterexample: for input with surrounding whitespace and no
delimiters the segmenter returns the text unchanged, not trimmed, so the
claimed `segment(text) == [text.trim()]` fails. -/
theorem c7_counterexample :
    extract_steps_from_text " play jazz " = [" play jazz "] ∧
    extract_steps_from_text " play jazz " ≠ [pyStrip " play jazz "] := by
  decide

/-- C7 (amended): for single-clause input with no numbered markers and no
connectors, `segment(text) == [text]`, the original text exactly as given
(which coincides with the trimmed text only when the input carries no
surrounding whitespace). -/
theorem segment_single_clause_returns_input_unchanged (text : String)
    (h1 : markers.any (fun m => pyContains text m) = false)
    (h2 : connectors.find? (fun c => pyContains (pyLower text) c) = none) :
    extract_steps_from_text text = [text] :=
  extract_no_structure text h1 h2

/-- Witness for the C7 amended theorem at the spec's own single-clause
example. -/
theorem segment_single_clause_returns_input_unchanged_witness :
    extract_steps_from_text "play some jazz" = ["play some jazz"] :=
  segment_single_clause_returns_input_unchanged "play some jazz"
    (by decide) (by decide)

/-- C8 counterexample: the code has no semicolon strategy at all; an input
containing a semicolon (and no numbered markers or connectors) is
returned whole as a single step instead of being split at the semicolon. -/
theorem c8_counterexample :
    extract_steps_from_text "open mail; close tabs" = ["open mail; close tabs"] ∧
    extract_steps_from_text "open mail; close tabs" ≠ ["open mail", "close tabs"] := by
  decide

/-- C8 (amended): `extract_steps_from_text` never splits on semicolons: a
text containing a semicolon but no numbered markers and no connectors
comes back unsplit as the single step `[text]`. -/
theorem segment_does_not_split_semicolons (text : String)
    (_h0 : pyContains text ";" = true)
    (h1 : markers.any (fun m => pyContains text m) = false)
    (h2 : connectors.find? (fun c => pyContains (pyLower text) c) = none) :
    extract_steps_from_text text = [text] :=
  extract_no_structure text h1 h2

/-- Witness for the C8 amended theorem. -/
theorem segment_does_not_split_semicolons_witness :
    pyContains "open mail; close tabs" ";" = true ∧
    extract_steps_from_text "open mail; close tabs" = ["open mail; close tabs"] :=
  ⟨by decide,
    segment_does_not_split_semicolons "open mail; close tabs"
      (by decide) (by decide) (by decide)⟩

/-- With the cursor at or past the last command, `advance` completes the
sequence and returns no command. -/
theorem advance_at_end (s : CommandSequence)
    (h : ¬ s.current_index + 1 < (s.commands.length : Int)) :
    s.advance = ({ s with state := CommandState.completed }, none) := by
  unfold CommandSequence.advance
  rw [if_neg h]

/-- First projection of an `if` whose branches share their first component. -/
theorem ite_pair_fst {α β : Type} (c : Prop) [Decidable c] (a : α) (b1 b2 : β) :
    (if c then (a, b1) else (a, b2)).1 = a := by
  split <;> rfl

/-- C10 (confirmed): enqueueing an empty sequence on an idle orchestrator
makes it active and marks it `Completed`, but it is not retired: it stays
the active sequence with an untouched history, later enqueued sequences
wait behind it, and only a subsequent `advance_sequence` retires it to
history and activates the next queued sequence. -/
theorem empty_sequence_completes_but_is_not_retired
    (p : CommandProcessor) (s : CommandSequence)
    (h1 : p.active_sequence = none) (h2 : p.sequence_queue = [])
    (h3 : s.commands = []) (h4 : s.current_index = -1) :
    (p.queue_sequence s).active_sequence
        = some { s with state := CommandState.completed } ∧
    (p.queue_sequence s).sequence_queue = [] ∧
    (p.queue_sequence s).command_history = p.command_history ∧
    ∀ t : CommandSequence,
      ((p.queue_sequence s).queue_sequence t).active_sequence
          = some { s with state := CommandState.completed } ∧
      ((p.queue_sequence s).queue_sequence t).sequence_queue = [t] ∧
      (((p.queue_sequence s).queue_sequence t).advance_sequence).1.command_history
          = p.command_history ++ [{ s with state := CommandState.completed }] ∧
      (((p.queue_sequence s).queue_sequence t).advance_sequence).1.active_sequence
          = some (({ t with state := CommandState.in_progress } : CommandSequence).advance).1 ∧
      (((p.queue_sequence s).queue_sequence t).advance_sequence).1.sequence_queue = [] := by
  have hend : ({ s with state := CommandState.in_progress } : CommandSequence).advance
      = ({ s with state := CommandState.completed }, none) := by
    rw [advance_at_end _ (by simp [h3, h4])]
  have hendC : ({ s with state := CommandState.completed } : CommandSequence).advance
      = ({ s with state := CommandState.completed }, none) := by
    rw [advance_at_end _ (by simp [h3, h4])]
  have hq : p.queue_sequence s
      = { p with active_sequence := some { s with state := CommandState.completed }, sequence_queue := [] } := by
    unfold CommandProcessor.queue_sequence CommandProcessor.process_next_from_queue
    simp [h1, h2, hend]
  refine ⟨by rw [hq], by rw [hq], by rw [hq], ?_⟩
  intro t
  have hqt : (p.queue_sequence s).queue_sequence t
      = { p with active_sequence := some { s with state := CommandState.completed }, sequence_queue := [t] } := by
    rw [hq]
    unfold CommandProcessor.queue_sequence
    simp
  have hadv : (((p.queue_sequence s).queue_sequence t).advance_sequence).1
      = { p with active_sequence := some (({ t with state := CommandState.in_progress } : CommandSequence).advance).1, sequence_queue := [], awaiting_confirmation := false, command_history := p.command_history ++ [{ s with state := CommandState.completed }] } := by
    rw [hqt]
    unfold CommandProcessor.advance_sequence CommandProcessor.process_next_from_queue
    simp only [hendC]
    rw [ite_pair_fst]
  exact ⟨by rw [hqt], by rw [hqt], by rw [hadv], by rw [hadv], by rw [hadv]⟩

/-- Witness for C10 at the empty sequence `a` with `t` queued behind it. -/
theorem empty_sequence_completes_but_is_not_retired_witness :
    ((CommandProcessor.init noHandlers).queue_sequence emptySeqA).active_sequence
        = some { emptySeqA with state := CommandState.completed } ∧
    (((CommandProcessor.init noHandlers).queue_sequence emptySeqA).queue_sequence tailSeqT).sequence_queue
        = [tailSeqT] := by
  have h := empty_sequence_completes_but_is_not_retired
    (CommandProcessor.init noHandlers) emptySeqA rfl rfl rfl rfl
  exact ⟨h.1, (h.2.2.2 tailSeqT).2.1⟩

/-- C6 (amended): the history is append-only and append-ordered: every
public operation leaves it unchanged or appends retired sequences at the
end (so the most recently retired sequence is last, not first), and no
operation ever removes from it (so its length is unbounded over runs, not
bounded). -/
theorem history_is_append_only_most_recent_last (p : CommandProcessor)
    (b : Bool) (i : String) (hd : Handler) (sq s : CommandSequence)
    (h : p.active_sequence = some s) :
    (p.register_handler i hd).command_history = p.command_history ∧
    (p.queue_sequence sq).command_history = p.command_history ∧
    (p.process_current_command).1.command_history = p.command_history ∧
    (∃ t, (p.advance_sequence).1.command_history = p.command_history ++ t) ∧
    (∃ t, ((p.handle_confirmation b).1).command_history = p.command_history ++ t) ∧
    (p.request_confirmation).1.command_history = p.command_history ∧
    (p.cancel_all).1.command_history
        = p.command_history ++ [{ s with state := CommandState.cancelled }] := by
  refine ⟨rfl, ?_, ?_, advance_history_extends p, ?_, ?_, ?_⟩
  · unfold CommandProcessor.queue_sequence
    simp [h]
  · unfold CommandProcessor.process_current_command
    cases hc : s.get_current_command <;> simp [h, hc]
  · unfold CommandProcessor.handle_confirmation
    cases hg : p.awaiting_confirmation with
    | false => exact ⟨[], by simp⟩
    | true =>
      cases b with
      | false =>
        refine ⟨[{ s with state := CommandState.cancelled }], ?_⟩
        simp only [h]
        simp only [reduceCtorEq, reduceIte]
        split <;> simp [pnq_history]
      | true =>
        obtain ⟨t, ht⟩ :=
          advance_history_extends { p with awaiting_confirmation := false }
        refine ⟨t, ?_⟩
        simpa [CommandProcessor.confirm_proceed] using ht
  · unfold CommandProcessor.request_confirmation
    cases hn : s.get_next_command <;> simp [h, hn]
  · unfold CommandProcessor.cancel_all
    simp [h]

/-- C6 counterexample: sequence `a` is retired before sequence `b`, yet the
history reads `["a", "b"]`: the most recently retired sequence is last,
not first, so the claimed most-recent-first order is false (and nothing in
the code ever truncates the list, so no fixed length bound holds either). -/
theorem c6_counterexample :
    twoRetiredP.command_history.map CommandSequence.name = ["a", "b"] ∧
    twoRetiredP.command_history.map CommandSequence.name ≠ ["b", "a"] := by
  decide

/-- Witness for the C6 amended theorem at a processor with an active
sequence. -/
theorem history_is_append_only_most_recent_last_witness :
    ((CommandProcessor.init noHandlers).queue_sequence emptySeqA).active_sequence
        = some { emptySeqA with state := CommandState.completed } ∧
    ((((CommandProcessor.init noHandlers).queue_sequence emptySeqA).cancel_all).1.command_history
        = ((CommandProcessor.init noHandlers).queue_sequence emptySeqA).command_history
            ++ [{ { emptySeqA with state := CommandState.completed } with
                  state := CommandState.cancelled }]) :=
  ⟨by decide,
    (history_is_append_only_most_recent_last
      ((CommandProcessor.init noHandlers).queue_sequence emptySeqA)
      true "g" boomHandler emptySeqB
      { emptySeqA with state := CommandState.completed } (by decide)).2.2.2.2.2.2⟩

/-- The operation `process_current_command` never touches the gate and keeps
an active sequence active. -/
theorem process_shape (p : CommandProcessor) :
    (p.process_current_command).1.awaiting_confirmation = p.awaiting_confirmation ∧
    (p.process_current_command).1.active_sequence.isSome = p.active_sequence.isSome := by
  unfold CommandProcessor.process_current_command
  cases ha : p.active_sequence with
  | none => simp [ha]
  | some seq =>
    cases hc : seq.get_current_command with
    | none => simp [ha, hc]
    | some cmd => simp [ha, hc]

/-- With an active sequence, `advance_sequence` always clears the gate. -/
theorem advance_gate_false (p : CommandProcessor) (seq : CommandSequence)
    (h : p.active_sequence = some seq) :
    (p.advance_sequence).1.awaiting_confirmation = false := by
  unfold CommandProcessor.advance_sequence
  simp only [h]
  cases hv : (seq.advance).2 with
  | some c => simp [hv]
  | none =>
    simp only [hv]
    split <;> simp [pnq_gate]

/-- The operation `advance_sequence` never sets the gate. -/
theorem advance_gate_preserved (p : CommandProcessor)
    (h : p.awaiting_confirmation = false) :
    (p.advance_sequence).1.awaiting_confirmation = false := by
  cases ha : p.active_sequence with
  | none => simp [CommandProcessor.advance_sequence, ha, h]
  | some seq => exact advance_gate_false p seq ha

/-- The operation `handle_confirmation` either does nothing or ends with the
gate cleared. -/
theorem handle_confirmation_gate (p : CommandProcessor) (b : Bool) :
    (p.handle_confirmation b).1 = p ∨
    ((p.handle_confirmation b).1).awaiting_confirmation = false := by
  unfold CommandProcessor.handle_confirmation
  cases hg : p.awaiting_confirmation with
  | false => left; simp
  | true =>
    right
    cases b with
    | false =>
      cases ha : p.active_sequence with
      | some seq =>
        simp only [ha]
        simp only [reduceCtorEq, reduceIte]
        split <;> simp [pnq_gate]
      | none =>
        simp only [ha]
        simp only [reduceCtorEq, reduceIte]
        exact advance_gate_preserved _ rfl
    | true =>
      simp only [reduceCtorEq, reduceIte]
      exact advance_gate_preserved _ rfl

/-- C9 (confirmed): in every reachable orchestrator state, a raised
confirmation gate implies an active sequence is present; the gate is only
ever set while a sequence is active, and every operation that clears the
active sequence also clears the gate. -/
theorem awaiting_confirmation_implies_active (p : CommandProcessor)
    (hr : Reachable p) (hg : p.awaiting_confirmation = true) :
    p.active_sequence.isSome = true := by
  induction hr with
  | init hs => simp [CommandProcessor.init] at hg
  | register q i hd _ ih =>
    simp only [CommandProcessor.register_handler] at hg ⊢
    exact ih hg
  | queue q s _ ih =>
    cases ha : q.active_sequence with
    | some a => simp [CommandProcessor.queue_sequence, ha]
    | none =>
      have he : q.queue_sequence s
          = (({ q with sequence_queue := q.sequence_queue ++ [s] }
              : CommandProcessor).process_next_from_queue).1 := by
        simp [CommandProcessor.queue_sequence, ha]
      rw [he]
      exact pnq_active_of_ne _ (by simp)
  | process q _ ih =>
    have hs := process_shape q
    rw [hs.1] at hg
    rw [hs.2]
    exact ih hg
  | advance q _ ih =>
    cases ha : q.active_sequence with
    | none =>
      have he : (q.advance_sequence).1 = q := by
        simp [CommandProcessor.advance_sequence, ha]
      rw [he] at hg ⊢
      exact ih hg
    | some seq =>
      rw [advance_gate_false q seq ha] at hg
      exact Bool.noConfusion hg
  | confirm q b _ ih =>
    rcases handle_confirmation_gate q b with he | hf
    · rw [he] at hg ⊢
      exact ih hg
    · rw [hf] at hg
      exact Bool.noConfusion hg
  | request q _ ih =>
    cases ha : q.active_sequence with
    | none =>
      have he : (q.request_confirmation).1 = q := by
        simp [CommandProcessor.request_confirmation, ha]
      rw [he] at hg ⊢
      exact ih hg
    | some seq =>
      cases hn : seq.get_next_command with
      | none =>
        have he : (q.request_confirmation).1 = q := by
          simp [CommandProcessor.request_confirmation, ha, hn]
        rw [he] at hg ⊢
        exact ih hg
      | some nx =>
        have he : (q.request_confirmation).1
            = { q with awaiting_confirmation := true } := by
          simp [CommandProcessor.request_confirmation, ha, hn]
        rw [he]
        simp [ha]
  | cancel q _ ih =>
    rw [(cancel_all_state q).2.2.1] at hg
    exact Bool.noConfusion hg

/-- Witness for C9 at a concrete reachable gated state. -/
theorem awaiting_confirmation_implies_active_witness :
    gatedProcessor.active_sequence.isSome = true :=
  awaiting_confirmation_implies_active gatedProcessor
    (Reachable.request _ (Reachable.queue _ _ (Reachable.init noHandlers)))
    (by decide)

/-- Fresh sequences satisfy the cursor/pending invariant. -/
theorem seqInit_inv (s : CommandSequence) (h : SeqInit s) : SeqInv s := by
  refine ⟨by rw [h.1], ?_⟩
  intro j _ c hc
  exact h.2 c (List.getElem?_mem hc)

/-- Unfolds a present current command to its list lookup. -/
theorem get_current_eq (s : CommandSequence) (c : Command)
    (h : s.get_current_command = some c) :
    s.commands[s.current_index.toNat]? = some c := by
  unfold CommandSequence.get_current_command at h
  split at h
  · exact h
  · exact Option.noConfusion h

/-- Every orchestrator sequence mutation preserves the cursor/pending
invariant. -/
theorem seqStep_inv (s s' : CommandSequence) (hs : SeqInv s)
    (h : SeqStep s s') : SeqInv s' := by
  cases h with
  | start => exact hs
  | cancel => exact hs
  | advance =>
    unfold CommandSequence.advance
    by_cases hlt : s.current_index + 1 < (s.commands.length : Int)
    · rw [if_pos hlt]
      have h0 := hs.1
      refine ⟨?_, ?_⟩
      · dsimp only
        omega
      · intro j hj c hc
        dsimp only at hj hc
        rw [listModify_get_ne _ _ _ _ (by omega)] at hc
        exact hs.2 j (by omega) c hc
    · rw [if_neg hlt]
      exact hs
  | complete r =>
    unfold CommandSequence.mark_current_complete
    by_cases hb : 0 ≤ s.current_index ∧ s.current_index < (s.commands.length : Int)
    · rw [if_pos hb]
      have h0 := hb.1
      refine ⟨hs.1, ?_⟩
      intro j hj c hc
      dsimp only at hj hc
      rw [listModify_get_ne _ _ _ _ (by omega)] at hc
      exact hs.2 j hj c hc
    · rw [if_neg hb]
      exact hs
  | fails e =>
    unfold CommandSequence.mark_current_failed
    by_cases hb : 0 ≤ s.current_index ∧ s.current_index < (s.commands.length : Int)
    · rw [if_pos hb]
      have h0 := hb.1
      refine ⟨hs.1, ?_⟩
      intro j hj c hc
      dsimp only at hj hc
      rw [listModify_get_ne _ _ _ _ (by omega)] at hc
      exact hs.2 j hj c hc
    · rw [if_neg hb]
      exact hs
  | resolve c i h =>
    have hb := get_current_bounds s c h
    have h0 := hb.1
    unfold CommandSequence.set_current
    refine ⟨hs.1, ?_⟩
    intro j hj d hd
    dsimp only at hj hd
    rw [listModify_get_ne _ _ _ _ (by omega)] at hd
    exact hs.2 j hj d hd

/-- Ranks are bounded by the terminal rank. -/
theorem rank_le_two (st : CommandState) : rank st ≤ 2 := by
  cases st <;> simp [rank]

/-- Under the invariant, every orchestrator sequence mutation preserves the
command list length and never decreases any command's progress rank. -/
theorem seqStep_mono (s s' : CommandSequence) (hs : SeqInv s)
    (h : SeqStep s s') :
    s'.commands.length = s.commands.length ∧
    ∀ (j : Nat) (a b : Command), s.commands[j]? = some a → s'.commands[j]? = some b →
      rank a.state ≤ rank b.state := by
  cases h with
  | start =>
    refine ⟨rfl, ?_⟩
    intro j a b ha hb
    rw [ha] at hb
    cases hb
    exact Nat.le_refl _
  | cancel =>
    refine ⟨rfl, ?_⟩
    intro j a b ha hb
    rw [ha] at hb
    cases hb
    exact Nat.le_refl _
  | advance =>
    unfold CommandSequence.advance
    by_cases hlt : s.current_index + 1 < (s.commands.length : Int)
    · rw [if_pos hlt]
      refine ⟨?_, ?_⟩
      · dsimp only
        exact listModify_length _ _ _
      · intro j a b ha hb
        dsimp only at hb
        by_cases hj : (s.current_index + 1).toNat = j
        · subst hj
          rw [listModify_get_self, ha] at hb
          cases hb
          have h0 := hs.1
          have hp : a.state = CommandState.pending :=
            hs.2 _ (by omega) a ha
          rw [hp]
          simp [rank]
        · rw [listModify_get_ne _ _ _ _ hj, ha] at hb
          cases hb
          exact Nat.le_refl _
    · rw [if_neg hlt]
      refine ⟨rfl, ?_⟩
      intro j a b ha hb
      dsimp only at hb
      rw [ha] at hb
      cases hb
      exact Nat.le_refl _
  | complete r =>
    unfold CommandSequence.mark_current_complete
    by_cases hb0 : 0 ≤ s.current_index ∧ s.current_index < (s.commands.length : Int)
    · rw [if_pos hb0]
      refine ⟨?_, ?_⟩
      · dsimp only
        exact listModify_length _ _ _
      · intro j a b ha hb
        dsimp only at hb
        by_cases hj : s.current_index.toNat = j
        · subst hj
          rw [listModify_get_self, ha] at hb
          cases hb
          exact le_trans (rank_le_two _) (by simp [rank])
        · rw [listModify_get_ne _ _ _ _ hj, ha] at hb
          cases hb
          exact Nat.le_refl _
    · rw [if_neg hb0]
      refine ⟨rfl, ?_⟩
      intro j a b ha hb
      rw [ha] at hb
      cases hb
      exact Nat.le_refl _
  | fails e =>
    unfold CommandSequence.mark_current_failed
    by_cases hb0 : 0 ≤ s.current_index ∧ s.current_index < (s.commands.length : Int)
    · rw [if_pos hb0]
      refine ⟨?_, ?_⟩
      · dsimp only
        exact listModify_length _ _ _
      · intro j a b ha hb
        dsimp only at hb
        by_cases hj : s.current_index.toNat = j
        · subst hj
          rw [listModify_get_self, ha] at hb
          cases hb
          exact le_trans (rank_le_two _) (by simp [rank])
        · rw [listModify_get_ne _ _ _ _ hj, ha] at hb
          cases hb
          exact Nat.le_refl _
    · rw [if_neg hb0]
      refine ⟨rfl, ?_⟩
      intro j a b ha hb
      rw [ha] at hb
      cases hb
      exact Nat.le_refl _
  | resolve c i h =>
    have hc := get_current_eq s c h
    unfold CommandSequence.set_current
    refine ⟨?_, ?_⟩
    · dsimp only
      exact listModify_length _ _ _
    · intro j a b ha hb
      dsimp only at hb
      by_cases hj : s.current_index.toNat = j
      · subst hj
        rw [listModify_get_self, ha] at hb
        cases hb
        rw [hc] at ha
        cases ha
        exact Nat.le_refl _
      · rw [listModify_get_ne _ _ _ _ hj, ha] at hb
        cases hb
        exact Nat.le_refl _

/-- Reachable sequences satisfy the cursor/pending invariant. -/
theorem seqReachable_inv (s : CommandSequence) (h : SeqReachable s) :
    SeqInv s := by
  obtain ⟨s0, h0, hsteps⟩ := h
  induction hsteps with
  | refl => exact seqInit_inv s0 h0
  | tail _ hbc ih => exact seqStep_inv _ _ ih hbc

/-- C3 (corrected, kept part): along every orchestrator mutation of a
reachable sequence, each command's progress rank
(`Pending(0) -> InProgress(1) -> \x7bCompleted, Failed\x7d(2)`) never
decreases: a command never returns to `Pending` or `InProgress`.  (The
dropped parts of the claim, mutual exclusion of `result`/`error`,
set-at-most-once, and no `Completed`/`Failed` overwrite, are refuted by
the counterexample.) -/
theorem command_state_rank_monotone (s s' : CommandSequence)
    (h1 : SeqReachable s) (h2 : SeqStep s s') :
    s'.commands.length = s.commands.length ∧
    ∀ (j : Nat) (a b : Command), s.commands[j]? = some a → s'.commands[j]? = some b →
      rank a.state ≤ rank b.state :=
  seqStep_mono s s' (seqReachable_inv s h1) h2

/-- Witness for the C3 amended theorem: one advance step on a fresh one-step
sequence. -/
theorem command_state_rank_monotone_witness :
    (oneStepSeq.advance).1.commands.length = oneStepSeq.commands.length ∧
    ∀ (j : Nat) (a b : Command), oneStepSeq.commands[j]? = some a →
      (oneStepSeq.advance).1.commands[j]? = some b →
      rank a.state ≤ rank b.state :=
  command_state_rank_monotone oneStepSeq (oneStepSeq.advance).1
    ⟨oneStepSeq, ⟨rfl, by decide⟩, Relation.ReflTransGen.refl⟩
    (SeqStep.advance oneStepSeq)

/-- C3 counterexample: after re-processing the same still-current command,
it carries both `result = some "r"` and the earlier `error`, and its
state moved `Failed -> Completed`: `result`/`error` are not mutually
exclusive and are not set at most once, refuting the claim as stated. -/
theorem c3_counterexample :
    (doubleProcessedRun.active_sequence.bind CommandSequence.get_current_command).map
        (fun c => (c.state, c.result, c.error))
      = some (CommandState.completed, some "r",
          some "No handler found for intent: general") := by
  decide

/-- Reading back the written current command of `set_current`. -/
theorem set_current_get (s : CommandSequence) (c d : Command)
    (h : s.commands[s.current_index.toNat]? = some d) :
    (s.set_current c).commands[s.current_index.toNat]? = some c := by
  unfold CommandSequence.set_current
  dsimp only
  rw [listModify_get_self, h]
  rfl

/-- The current command after `mark_current_failed` is the old one marked
`Failed` with the error attached. -/
theorem get_current_after_mark_failed (s : CommandSequence) (e : String)
    (c : Command)
    (hsc : s.commands[s.current_index.toNat]? = some c)
    (hb : 0 ≤ s.current_index ∧ s.current_index < (s.commands.length : Int)) :
    (s.mark_current_failed e).get_current_command
      = some { c with state := CommandState.failed, error := some e } := by
  unfold CommandSequence.mark_current_failed CommandSequence.get_current_command
  rw [if_pos hb]
  dsimp only
  rw [if_pos (by rw [listModify_length]; exact hb)]
  rw [listModify_get_self, hsc]
  rfl

/-- When the cursor can still move, `advance_sequence` succeeds with a
Moving-to-next-step message and keeps a sequence active. -/
theorem advance_sequence_mid (p : CommandProcessor) (s2 : CommandSequence)
    (ha : p.active_sequence = some s2)
    (hlt : s2.current_index + 1 < (s2.commands.length : Int))
    (hge : -1 ≤ s2.current_index) :
    ∃ c : Command,
      (p.advance_sequence).2 = (true, some c, "Moving to next step: " ++ c.text) ∧
      ((p.advance_sequence).1.active_sequence).isSome = true := by
  have hidx : (s2.current_index + 1).toNat
      < (listModify s2.commands (s2.current_index + 1).toNat
          (fun x => { x with state := CommandState.in_progress })).length := by
    rw [listModify_length]
    omega
  obtain ⟨c, hc⟩ : ∃ c : Command,
      (listModify s2.commands (s2.current_index + 1).toNat
        (fun x => { x with state := CommandState.in_progress }))[(s2.current_index + 1).toNat]?
        = some c :=
    ⟨_, List.getElem?_eq_getElem hidx⟩
  have hadv2 : (s2.advance).2 = some c := by
    unfold CommandSequence.advance
    rw [if_pos hlt]
    dsimp only
    exact hc
  refine ⟨c, ?_, ?_⟩
  · unfold CommandProcessor.advance_sequence
    simp [ha, hadv2]
  · unfold CommandProcessor.advance_sequence
    simp [ha, hadv2]

/-- C1 (corrected): when the handler for the current command raises, the
command is marked `Failed` with the error text and the sequence's state
becomes `Failed`, but the sequence is not retired: history is unchanged,
it stays the active sequence, and when further steps remain the next
`advance_sequence` does not report "no active sequence"; it succeeds and
moves on to the next remaining step. -/
theorem dispatch_failure_keeps_sequence_active (p : CommandProcessor)
    (seq : CommandSequence) (cmd : Command) (i e : String) (hd : Handler)
    (h1 : p.active_sequence = some seq)
    (h2 : seq.get_current_command = some cmd)
    (h3 : cmd.intent = some i) (h4 : i ≠ "")
    (h5 : p.command_handlers i = some hd)
    (h6 : hd cmd.text cmd.parameters = Except.error e)
    (h7 : seq.current_index + 1 < (seq.commands.length : Int)) :
    (p.process_current_command).2.1 = "Error processing command: " ++ e ∧
    ((p.process_current_command).1.active_sequence.bind
        CommandSequence.get_current_command).map (fun c => (c.state, c.error))
      = some (CommandState.failed, some ("Error processing command: " ++ e)) ∧
    ((p.process_current_command).1.active_sequence.map CommandSequence.state)
      = some CommandState.failed ∧
    (p.process_current_command).1.command_history = p.command_history ∧
    ∃ c : Command,
      ((p.process_current_command).1.advance_sequence).2
        = (true, some c, "Moving to next step: " ++ c.text) ∧
      (((p.process_current_command).1.advance_sequence).1.active_sequence).isSome
        = true := by
  have hb := get_current_bounds seq cmd h2
  have hce := get_current_eq seq cmd h2
  have hni : ((cmd.intent.getD "" == "") && (cmd.text != "")) = false := by
    rw [h3]
    simp [h4]
  have hmain : p.process_current_command
      = ({ p with active_sequence := some ((seq.set_current cmd).mark_current_failed ("Error processing command: " ++ e)) },
          "Error processing command: " ++ e, none) := by
    unfold CommandProcessor.process_current_command
    simp only [h1, h2, hni, h3, h5, h6]
    simp [h3, h4, h5, h6]
  have hbseq2 : 0 ≤ (seq.set_current cmd).current_index ∧
      (seq.set_current cmd).current_index
        < (((seq.set_current cmd).commands).length : Int) := by
    rw [set_current_index, set_current_length]
    exact hb
  have hsc2 : (seq.set_current cmd).commands[(seq.set_current cmd).current_index.toNat]?
      = some cmd := by
    rw [set_current_index]
    exact set_current_get seq cmd cmd hce
  refine ⟨by rw [hmain], ?_, ?_, by rw [hmain], ?_⟩
  · rw [hmain]
    simp [get_current_after_mark_failed _ _ _ hsc2 hbseq2]
  · rw [hmain]
    simp [mark_current_failed_state _ _ hbseq2]
  · have hb1 := hb.1
    refine advance_sequence_mid _
      ((seq.set_current cmd).mark_current_failed ("Error processing command: " ++ e))
      ?_ ?_ ?_
    · rw [hmain]
    · rw [mark_current_failed_index, mark_current_failed_length,
        set_current_index, set_current_length]
      exact h7
    · rw [mark_current_failed_index, set_current_index]
      omega

/-- C1 counterexample: after the handler exception the command and sequence
are `Failed` as claimed, but the sequence is not retired: it is still the
active sequence, and the next `advance_sequence` succeeds ("Moving to
next step: hello", not "no active sequence") and marks the remaining
second step `InProgress`. -/
theorem c1_counterexample :
    failedMidRun.active_sequence.map CommandSequence.state
        = some CommandState.failed ∧
    (failedMidRun.advance_sequence).2.1 = true ∧
    (failedMidRun.advance_sequence).2.2.2 = "Moving to next step: hello" ∧
    (failedMidRun.advance_sequence).1.active_sequence.map
        (fun s => s.commands.map Command.state)
      = some [CommandState.failed, CommandState.in_progress] := by
  decide

/-- Witness for the C1 amended theorem at the preset two-step sequence under
the raising handler. -/
theorem dispatch_failure_keeps_sequence_active_witness :
    (presetP.process_current_command).2.1 = "Error processing command: " ++ "boom" ∧
    (presetP.process_current_command).1.command_history = presetP.command_history := by
  have h := dispatch_failure_keeps_sequence_active presetP presetActiveSeq
    { presetCmd "a" with state := CommandState.in_progress }
    "general" "boom" boomHandler
    (by decide) (by decide) rfl (by decide) rfl rfl (by decide)
  exact ⟨h.1, h.2.2.2.1⟩
